import Mathlib

/-!
# A shallow embedding of the `httpc` Go package

This file embeds the request-building and response-dispatch logic of the
`httpc` package (files `httpc.go` and the older `Endpoint`-based variant)
into Lean and proves properties of that logic.

Modelling conventions:

* Go `error` values are modelled by the inductive type `GoErr`.  The package's
  sentinel errors (`ErrUnhandledResponse`, `ErrSkipHandler`, `ErrNotHandled`)
  are constructors; `GoErr.wrapped` models an error wrapping another error
  (as produced by `fmt.Errorf` with `%w`), and `GoErr.is` models `errors.Is`.
* A `Handler` mutates the destination value and the response (reading or
  closing the body); it is modelled as a state transformer
  `σ → σ × Option GoErr`, where `none` is a `nil` error.
* The response body is modelled by the flags `drained`/`closed` together with
  the outcome of reading it (`readErr`) and closing it (`closeErr`).
* Decoding performed by external packages (`problem.From`, `json.Marshal`)
  is modelled by carrying the outcome of the call as data
  (`Response.problemResult`, the `marshal` argument of `WithBodyJSON`).
-/

set_option autoImplicit false

namespace Httpc

/-- Model of a parsed `url.URL`, restricted to the fields the package reads
and writes (`Path` and `RawQuery`). -/
structure URL where
  path : String
  rawQuery : String
deriving DecidableEq, Repr

/-- Model of Go `error` values as used by the package: the three sentinel
errors, the `UnusedPathValueError` struct, a decoded RFC 9457 problem value
used as an error, `http.ErrBodyReadAfterClose`, errors wrapping other errors,
and opaque errors distinguished by a tag. -/
inductive GoErr where
  | errUnhandledResponse
  | errSkipHandler
  | errNotHandled
  | errBodyReadAfterClose
  | unusedPathValueError (url : URL) (name value : String)
  | problemDetails (data : String)
  | wrapped (inner : GoErr) (tag : Nat)
  | other (tag : Nat)
deriving DecidableEq, Repr

/-- Model of `errors.Is err target` for the sentinel targets used by the
package: the error equals the target, or some error in its unwrap chain
does. -/
def GoErr.is : GoErr → GoErr → Bool
  | .wrapped inner tag, t => decide (GoErr.wrapped inner tag = t) || GoErr.is inner t
  | e, t => decide (e = t)

/-- Outcome of `problem.From(resp)`: either a decoding error or the decoded
problem details (abstracted to their textual content). -/
inductive ProblemResult where
  | failure (e : GoErr)
  | details (d : String)
deriving DecidableEq, Repr

/-- Model of an `*http.Response` together with the state of its body.
`drained` records that the body was read to EOF, `closed` that it was closed.
`readErr`/`closeErr` are the errors produced by reading resp. closing the
body, and `problemResult` is the outcome `problem.From` would produce when
decoding the body. -/
structure Response where
  statusCode : Int
  header : List (String × List String)
  drained : Bool
  closed : Bool
  readErr : Option GoErr
  closeErr : Option GoErr
  problemResult : ProblemResult
deriving DecidableEq, Repr

/-- `http.Header.Get`: first value stored for the (canonical) key, or `""`. -/
def headerGet (h : List (String × List String)) (k : String) : String :=
  match h.find? (fun p => p.1 == k) with
  | some (_, v :: _) => v
  | _ => ""

/-- `http.Header.Set`: replace all values for the key by the single value. -/
def headerSet (h : List (String × List String)) (k v : String) :
    List (String × List String) :=
  if h.any (fun p => p.1 == k) then
    h.map (fun p => if p.1 == k then (k, [v]) else p)
  else
    h ++ [(k, [v])]

/-- A `Handler` (`HandleResponse(dst, resp)`), modelled as a state
transformer over a state `σ` containing the destination value and the
response; `none` models a `nil` error. -/
abbrev Handler (σ : Type) := σ → σ × Option GoErr

/-- `HandlerChain.HandleResponse` from `httpc.go`: call each handler in
order; return the first result that is `nil` or whose error does not match
`ErrUnhandledResponse`; return `ErrUnhandledResponse` when the chain is
exhausted. -/
def HandlerChain.HandleResponse {σ : Type} :
    List (Handler σ) → σ → σ × Option GoErr
  | [], s => (s, some .errUnhandledResponse)
  | h :: t, s =>
    match h s with
    | (s', none) => (s', none)
    | (s', some e) =>
      if e.is .errUnhandledResponse then HandlerChain.HandleResponse t s'
      else (s', some e)

/-- The handler loop inside `Endpoint.Do` (older variant of the package):
call each handler in order; stop at the first `nil` result; fall through on
errors matching `ErrSkipHandler`; return any other error unchanged; return
`ErrNotHandled` when the list is exhausted. -/
def Endpoint.doLoop {σ : Type} : List (Handler σ) → σ → σ × Option GoErr
  | [], s => (s, some .errNotHandled)
  | h :: t, s =>
    match h s with
    | (s', none) => (s', none)
    | (s', some e) =>
      if e.is .errSkipHandler then Endpoint.doLoop t s'
      else (s', some e)

/-- State reached after running a list of handlers in order, ignoring their
errors; used to phrase "handler `i` is invoked on the state produced by the
handlers before it". -/
def runAll {σ : Type} (hs : List (Handler σ)) (s : σ) : σ :=
  hs.foldl (fun s h => (h s).1) s

theorem runAll_cons {σ : Type} (p : Handler σ) (hs : List (Handler σ)) (s : σ) :
    runAll (p :: hs) s = runAll hs ((p s).1) := by
  simp [runAll]

theorem HandlerChain.handleResponse_cons_nil {σ : Type} (h : Handler σ)
    (t : List (Handler σ)) (s : σ) (hh : (h s).2 = none) :
    HandlerChain.HandleResponse (h :: t) s = ((h s).1, none) := by
  rcases hp : h s with ⟨s', e?⟩
  rw [hp] at hh
  simp only at hh
  subst hh
  rw [HandlerChain.HandleResponse, hp]

theorem HandlerChain.handleResponse_cons_skip {σ : Type} (h : Handler σ)
    (t : List (Handler σ)) (s : σ) (e : GoErr) (hh : (h s).2 = some e)
    (hskip : e.is .errUnhandledResponse = true) :
    HandlerChain.HandleResponse (h :: t) s
      = HandlerChain.HandleResponse t ((h s).1) := by
  rcases hp : h s with ⟨s', e?⟩
  rw [hp] at hh
  simp only at hh
  subst hh
  rw [HandlerChain.HandleResponse, hp]
  simp only [hskip, if_pos]

theorem HandlerChain.handleResponse_cons_stop {σ : Type} (h : Handler σ)
    (t : List (Handler σ)) (s : σ) (e : GoErr) (hh : (h s).2 = some e)
    (hstop : e.is .errUnhandledResponse = false) :
    HandlerChain.HandleResponse (h :: t) s = ((h s).1, some e) := by
  rcases hp : h s with ⟨s', e?⟩
  rw [hp] at hh
  simp only at hh
  subst hh
  rw [HandlerChain.HandleResponse, hp]
  simp [hstop]

theorem Endpoint.doLoop_cons_nil {σ : Type} (h : Handler σ)
    (t : List (Handler σ)) (s : σ) (hh : (h s).2 = none) :
    Endpoint.doLoop (h :: t) s = ((h s).1, none) := by
  rcases hp : h s with ⟨s', e?⟩
  rw [hp] at hh
  simp only at hh
  subst hh
  rw [Endpoint.doLoop, hp]

theorem Endpoint.doLoop_cons_skip {σ : Type} (h : Handler σ)
    (t : List (Handler σ)) (s : σ) (e : GoErr) (hh : (h s).2 = some e)
    (hskip : e.is .errSkipHandler = true) :
    Endpoint.doLoop (h :: t) s = Endpoint.doLoop t ((h s).1) := by
  rcases hp : h s with ⟨s', e?⟩
  rw [hp] at hh
  simp only at hh
  subst hh
  rw [Endpoint.doLoop, hp]
  simp only [hskip, if_pos]

theorem Endpoint.doLoop_cons_stop {σ : Type} (h : Handler σ)
    (t : List (Handler σ)) (s : σ) (e : GoErr) (hh : (h s).2 = some e)
    (hstop : e.is .errSkipHandler = false) :
    Endpoint.doLoop (h :: t) s = ((h s).1, some e) := by
  rcases hp : h s with ⟨s', e?⟩
  rw [hp] at hh
  simp only at hh
  subst hh
  rw [Endpoint.doLoop, hp]
  simp [hstop]

/-- C1: `HandlerChain.HandleResponse` invokes the handlers in order, falling
through exactly over handlers whose error matches `ErrUnhandledResponse`;
the first handler returning `nil` or a non-matching error stops the chain,
its result (state and error) is returned unchanged, and the handlers after
it (`post`) are never invoked. -/
theorem c1_chain_dispatch {σ : Type} (pre post : List (Handler σ)) (h : Handler σ) (s : σ)
    (hpre : ∀ i (hi : i < pre.length),
      ∃ e, ((pre.get ⟨i, hi⟩) (runAll (pre.take i) s)).2 = some e ∧
        e.is .errUnhandledResponse = true)
    (hdec : ∀ e, (h (runAll pre s)).2 = some e → e.is .errUnhandledResponse = false) :
    HandlerChain.HandleResponse (pre ++ h :: post) s = h (runAll pre s) := by
  induction pre generalizing s with
  | nil =>
    simp only [runAll, List.foldl_nil] at hdec ⊢
    rw [List.nil_append]
    cases he : (h s).2 with
    | none =>
      rw [HandlerChain.handleResponse_cons_nil h post s he, ← he]
    | some e =>
      rw [HandlerChain.handleResponse_cons_stop h post s e he (hdec e he), ← he]
  | cons p pre' ih =>
    obtain ⟨e₀, he₀, hise₀⟩ := hpre 0 (by simp)
    simp only [List.take_zero, runAll, List.foldl_nil, List.get] at he₀
    rw [List.cons_append,
      HandlerChain.handleResponse_cons_skip p (pre' ++ h :: post) s e₀ he₀ hise₀]
    have hstep : runAll (p :: pre') s = runAll pre' ((p s).1) := runAll_cons p pre' s
    rw [hstep] at hdec
    have hpre' : ∀ i (hi : i < pre'.length),
        ∃ e, ((pre'.get ⟨i, hi⟩) (runAll (pre'.take i) ((p s).1))).2 = some e ∧
          e.is .errUnhandledResponse = true := by
      intro i hi
      have := hpre (i + 1) (by simpa using Nat.succ_lt_succ hi)
      simpa [List.take_succ_cons, runAll_cons] using this
    rw [ih ((p s).1) hpre' hdec, hstep]

/-- Witness for C1: a three-handler chain over state `Nat` where the first
handler returns a wrapped `ErrUnhandledResponse`, the second stops with an
ordinary error, and the third is never invoked. -/
theorem c1_chain_dispatch_witness :
    HandlerChain.HandleResponse
      [fun n => (n + 1, some (GoErr.wrapped .errUnhandledResponse 0)),
       fun n => (n * 10, some (GoErr.other 5)),
       fun n => (n + 100, none)] (3 : Nat) = (40, some (GoErr.other 5)) := by
  have h := c1_chain_dispatch (σ := Nat)
    [fun n => (n + 1, some (GoErr.wrapped .errUnhandledResponse 0))]
    [fun n => (n + 100, none)]
    (fun n => (n * 10, some (GoErr.other 5))) 3
    (by
      intro i hi
      match i, hi with
      | 0, _ => exact ⟨GoErr.wrapped .errUnhandledResponse 0, rfl, rfl⟩)
    (by
      intro e he
      simp only [runAll, List.foldl_cons, List.foldl_nil, Option.some.injEq] at he
      subst he
      rfl)
  exact h.trans (by decide)

/-- C9: the empty chain returns `ErrUnhandledResponse`; a chain in which
every handler (at the state it actually receives) returns an error matching
`ErrUnhandledResponse` returns `ErrUnhandledResponse`; and the chain's error
result is `nil` only if some handler in it returned `nil`. -/
theorem c9_chain_exhaustion {σ : Type} (hs : List (Handler σ)) (s : σ) :
    (HandlerChain.HandleResponse ([] : List (Handler σ)) s
      = (s, some .errUnhandledResponse)) ∧
    ((∀ i (hi : i < hs.length),
        ∃ e, ((hs.get ⟨i, hi⟩) (runAll (hs.take i) s)).2 = some e ∧
          e.is .errUnhandledResponse = true) →
      (HandlerChain.HandleResponse hs s).2 = some .errUnhandledResponse) ∧
    ((HandlerChain.HandleResponse hs s).2 = none →
      ∃ i, ∃ hi : i < hs.length, ((hs.get ⟨i, hi⟩) (runAll (hs.take i) s)).2 = none) := by
  refine ⟨rfl, ?_, ?_⟩
  · induction hs generalizing s with
    | nil => intro _; rfl
    | cons p pre' ih =>
      intro hall
      obtain ⟨e₀, he₀, hise₀⟩ := hall 0 (by simp)
      simp only [List.take_zero, runAll, List.foldl_nil, List.get] at he₀
      rw [HandlerChain.handleResponse_cons_skip p pre' s e₀ he₀ hise₀]
      refine ih ((p s).1) ?_
      intro i hi
      have := hall (i + 1) (by simpa using Nat.succ_lt_succ hi)
      simpa [List.take_succ_cons, runAll_cons] using this
  · induction hs generalizing s with
    | nil =>
      intro hnone
      exact absurd hnone (by simp [HandlerChain.HandleResponse])
    | cons p pre' ih =>
      intro hnone
      cases hp : (p s).2 with
      | none =>
        exact ⟨0, by simp, by simpa [runAll] using hp⟩
      | some e =>
        by_cases hise : e.is .errUnhandledResponse = true
        · rw [HandlerChain.handleResponse_cons_skip p pre' s e hp hise] at hnone
          obtain ⟨i, hi, hres⟩ := ih ((p s).1) hnone
          refine ⟨i + 1, by simpa using Nat.succ_lt_succ hi, ?_⟩
          simpa [List.take_succ_cons, runAll_cons] using hres
        · rw [Bool.not_eq_true] at hise
          rw [HandlerChain.handleResponse_cons_stop p pre' s e hp hise] at hnone
          simp at hnone

/-- Witness for C9: a two-handler all-fall-through chain over state `Nat`
returns `ErrUnhandledResponse`. -/
theorem c9_chain_exhaustion_witness :
    (HandlerChain.HandleResponse
      [fun n => (n + 1, some GoErr.errUnhandledResponse),
       fun n => (n + 2, some (GoErr.wrapped .errUnhandledResponse 1))] (0 : Nat)).2
      = some .errUnhandledResponse := by
  refine (c9_chain_exhaustion _ 0).2.1 ?_
  intro i hi
  match i, hi with
  | 0, _ => exact ⟨GoErr.errUnhandledResponse, rfl, rfl⟩
  | 1, _ => exact ⟨GoErr.wrapped .errUnhandledResponse 1, rfl, rfl⟩

/-- Renaming of fall-through signals between the two dispatch
implementations: `ErrSkipHandler` and `ErrUnhandledResponse` are exchanged,
also inside wrapped errors; all other errors are left unchanged. -/
def swapSignal : GoErr → GoErr
  | .errSkipHandler => .errUnhandledResponse
  | .errUnhandledResponse => .errSkipHandler
  | .wrapped inner tag => .wrapped (swapSignal inner) tag
  | e => e

/-- A handler with its error result renamed by `swapSignal`. -/
def renameHandler {σ : Type} (h : Handler σ) : Handler σ :=
  fun s => ((h s).1, (h s).2.map swapSignal)

/-- Renaming of final dispatch results: the loop's exhaustion sentinel
`ErrNotHandled` corresponds to the chain's `ErrUnhandledResponse`, and any
other error corresponds via `swapSignal`. -/
def renameResult : Option GoErr → Option GoErr
  | none => none
  | some e =>
    if e = .errNotHandled then some .errUnhandledResponse else some (swapSignal e)

theorem swapSignal_is_unhandled (e : GoErr) :
    (swapSignal e).is .errUnhandledResponse = e.is .errSkipHandler := by
  induction e <;> simp_all [swapSignal, GoErr.is]

/-- C8: the two dispatch implementations are equivalent: for handlers that
do not themselves return the reserved exhaustion sentinel `ErrNotHandled`,
running `HandlerChain.HandleResponse` on the signal-renamed handlers gives
the same final state as the `Endpoint.Do` loop (the same handlers run, in
the same order, on the same successive states) and the corresponding error
result under the renaming
`ErrUnhandledResponse ↔ ErrSkipHandler` / `ErrNotHandled`. -/
theorem c8_dispatch_equivalence {σ : Type} (hs : List (Handler σ)) (s : σ)
    (hclean : ∀ h ∈ hs, ∀ st : σ, (h st).2 ≠ some GoErr.errNotHandled) :
    HandlerChain.HandleResponse (hs.map renameHandler) s =
      ((Endpoint.doLoop hs s).1, renameResult (Endpoint.doLoop hs s).2) := by
  induction hs generalizing s with
  | nil => rfl
  | cons h t ih =>
    rw [List.map_cons]
    have hfst : (renameHandler h s).1 = (h s).1 := rfl
    cases hh : (h s).2 with
    | none =>
      have hr : (renameHandler h s).2 = none := by
        simp [renameHandler, hh]
      rw [HandlerChain.handleResponse_cons_nil (renameHandler h) _ s hr,
        Endpoint.doLoop_cons_nil h t s hh, hfst]
      rfl
    | some e =>
      have hne : e ≠ GoErr.errNotHandled := by
        intro heq
        exact hclean h (List.mem_cons_self h t) s (by rw [hh, heq])
      have hr : (renameHandler h s).2 = some (swapSignal e) := by
        simp [renameHandler, hh]
      by_cases hskip : e.is .errSkipHandler = true
      · rw [HandlerChain.handleResponse_cons_skip (renameHandler h) _ s
          (swapSignal e) hr (by rw [swapSignal_is_unhandled, hskip]),
          Endpoint.doLoop_cons_skip h t s e hh hskip, hfst]
        exact ih ((h s).1) (fun g hg st => hclean g (List.mem_cons_of_mem h hg) st)
      · rw [Bool.not_eq_true] at hskip
        rw [HandlerChain.handleResponse_cons_stop (renameHandler h) _ s
          (swapSignal e) hr (by rw [swapSignal_is_unhandled, hskip]),
          Endpoint.doLoop_cons_stop h t s e hh hskip, hfst]
        simp only [renameResult, if_neg hne]

/-- Witness for C8: a skip-then-succeed handler list over state `Nat`; the
renamed chain and the loop agree, both producing the state `8` and a `nil`
error. -/
theorem c8_dispatch_equivalence_witness :
    HandlerChain.HandleResponse
      (List.map renameHandler
        [fun n => (n + 1, some GoErr.errSkipHandler), fun n => (n * 2, none)])
      (3 : Nat) = (8, none) := by
  have h := c8_dispatch_equivalence
    [fun n => (n + 1, some GoErr.errSkipHandler), fun n => (n * 2, none)] 3
    (by
      intro g hg st
      rcases List.mem_cons.mp hg with rfl | hg
      · simp
      rcases List.mem_cons.mp hg with rfl | hg
      · simp
      · cases hg)
  exact h.trans (by decide)

/-- Destination value together with the response: the state the package's
concrete handlers act on (`dst any`, `resp *http.Response`). -/
structure HandlerState (T : Type) where
  dst : T
  resp : Response
deriving DecidableEq, Repr

/-- The "before" component of `strings.Cut(value, ";")`: the part of the
string before the first `;`, or the whole string when there is none. -/
def cutSemi : List Char → List Char
  | [] => []
  | c :: rest => if c = ';' then [] else c :: cutSemi rest

/-- `ConditionalHandler` from `httpc.go`: run the wrapped handler only when
`cond` holds for the response; otherwise return `ErrUnhandledResponse`
without invoking it. -/
def ConditionalHandler {T : Type} (cond : Response → Bool)
    (handler : Handler (HandlerState T)) : Handler (HandlerState T) :=
  fun st => if cond st.resp then handler st else (st, some .errUnhandledResponse)

/-- The content-type test used by `ContentTypeHandler`: the `Content-Type`
header value matches as is, or with any parameters (everything from the
first `;` on) removed. -/
def contentTypeMatches (contentType : String) (resp : Response) : Bool :=
  let value := headerGet resp.header "Content-Type"
  if value == contentType then true
  else String.mk (cutSemi value.data) == contentType

/-- `ContentTypeHandler` from `httpc.go`. -/
def ContentTypeHandler {T : Type} (contentType : String)
    (handler : Handler (HandlerState T)) : Handler (HandlerState T) :=
  ConditionalHandler (contentTypeMatches contentType) handler

/-- `StatusHandler` from `httpc.go`: dispatch on the response status code. -/
def StatusHandler {T : Type} (statusCode : Int)
    (handler : Handler (HandlerState T)) : Handler (HandlerState T) :=
  ConditionalHandler (fun resp => resp.statusCode == statusCode) handler

/-- Modelled from the spec: the dependency `github.com/nussjustin/problem`
(not part of this repository) exposes the RFC 9457 content type constant
`problem.ContentType`, "recognized via content type". -/
def problemContentType : String := "application/problem+json"

/-- `resp.Body.Close()`: marks the body closed; the first close reports the
body's close error, a close of an already closed body reports `nil`. -/
def bodyClose (r : Response) : Response × Option GoErr :=
  if r.closed then (r, none) else ({r with closed := true}, r.closeErr)

/-- Modelled from the spec: `problem.From(resp)` of the `problem` dependency
reads the response body and decodes it as RFC 9457 problem details; the
outcome (decoding error, or the details as a non-nil value) is carried by
the response as `problemResult`. -/
def problemFrom (r : Response) : Response × ProblemResult :=
  ({r with drained := true}, r.problemResult)

/-- `ProblemHandler` from `httpc.go`: a `ContentTypeHandler` on
`problem.ContentType` whose wrapped handler closes the body (with
`defer`-style error merging) and returns the decoding error or the decoded
details as an error. -/
def ProblemHandler {T : Type} : Handler (HandlerState T) :=
  ContentTypeHandler problemContentType (fun st =>
    let p := problemFrom st.resp
    let err : Option GoErr :=
      match p.2 with
      | .failure e => some e
      | .details d => some (.problemDetails d)
    let c := bodyClose p.1
    let err' : Option GoErr :=
      match c.2 with
      | some cErr => if err = none then some cErr else err
      | none => err
    ({st with resp := c.1}, err'))

/-- C3: the handler built by `ContentTypeHandler` dispatches to the wrapped
handler if and only if the response's `Content-Type` header value equals the
given content type exactly or after truncating the value at the first `;`;
otherwise it returns `ErrUnhandledResponse` without invoking the wrapped
handler. -/
theorem c3_content_type_dispatch {T : Type} (ct : String)
    (handler : Handler (HandlerState T)) (st : HandlerState T) :
    (headerGet st.resp.header "Content-Type" = ct ∨
        String.mk (cutSemi (headerGet st.resp.header "Content-Type").data) = ct →
      ContentTypeHandler ct handler st = handler st) ∧
    (¬ (headerGet st.resp.header "Content-Type" = ct ∨
        String.mk (cutSemi (headerGet st.resp.header "Content-Type").data) = ct) →
      ContentTypeHandler ct handler st = (st, some .errUnhandledResponse)) := by
  constructor
  · intro hcond
    have hm : contentTypeMatches ct st.resp = true := by
      rcases hcond with h | h <;> simp [contentTypeMatches, h]
    simp [ContentTypeHandler, ConditionalHandler, hm]
  · intro hcond
    push_neg at hcond
    have hm : contentTypeMatches ct st.resp = false := by
      simp [contentTypeMatches, hcond.1, hcond.2]
    simp [ContentTypeHandler, ConditionalHandler, hm]

/-- Witness for C3: `"application/json; charset=utf-8"` matches
`"application/json"` (via parameter truncation) and dispatches; a
`"text/html"` response does not and yields `ErrUnhandledResponse`. -/
theorem c3_content_type_dispatch_witness :
    ContentTypeHandler "application/json" (fun st => (st, some (GoErr.other 9)))
      (⟨0, ⟨200, [("Content-Type", ["application/json; charset=utf-8"])],
        false, false, none, none, .details ""⟩⟩ : HandlerState Nat)
      = (⟨0, ⟨200, [("Content-Type", ["application/json; charset=utf-8"])],
        false, false, none, none, .details ""⟩⟩, some (GoErr.other 9)) ∧
    ContentTypeHandler "application/json" (fun st => (st, some (GoErr.other 9)))
      (⟨0, ⟨200, [("Content-Type", ["text/html"])],
        false, false, none, none, .details ""⟩⟩ : HandlerState Nat)
      = (⟨0, ⟨200, [("Content-Type", ["text/html"])],
        false, false, none, none, .details ""⟩⟩, some .errUnhandledResponse) := by
  constructor
  · exact (c3_content_type_dispatch "application/json" _ _).1 (Or.inr (by decide))
  · exact (c3_content_type_dispatch "application/json" _ _).2 (by decide)

/-- C5: the handler built by `StatusHandler` invokes the wrapped handler and
returns its result if and only if the response status code equals the given
one, and otherwise returns `ErrUnhandledResponse` without invoking it. -/
theorem c5_status_dispatch {T : Type} (sc : Int)
    (handler : Handler (HandlerState T)) (st : HandlerState T) :
    (st.resp.statusCode = sc → StatusHandler sc handler st = handler st) ∧
    (st.resp.statusCode ≠ sc →
      StatusHandler sc handler st = (st, some .errUnhandledResponse)) := by
  constructor
  · intro hcond
    simp [StatusHandler, ConditionalHandler, hcond]
  · intro hcond
    simp [StatusHandler, ConditionalHandler, hcond]

/-- Witness for C5: a 204 handler dispatches on a 204 response and falls
through on a 200 response. -/
theorem c5_status_dispatch_witness :
    StatusHandler 204 (fun st => (st, none))
      (⟨0, ⟨204, [], false, false, none, none, .details ""⟩⟩ : HandlerState Nat)
      = (⟨0, ⟨204, [], false, false, none, none, .details ""⟩⟩, none) ∧
    StatusHandler 204 (fun st => (st, none))
      (⟨0, ⟨200, [], false, false, none, none, .details ""⟩⟩ : HandlerState Nat)
      = (⟨0, ⟨200, [], false, false, none, none, .details ""⟩⟩,
          some .errUnhandledResponse) := by
  constructor
  · exact (c5_status_dispatch 204 _ _).1 (by decide)
  · exact (c5_status_dispatch 204 _ _).2 (by decide)

/-- C4: `ProblemHandler` recognizes a problem solely via the response
content type: on a non-matching response it returns `ErrUnhandledResponse`
leaving the response (in particular its body) untouched; on a matching
response it closes the body and returns the decoding error or the decoded
problem details — always a non-nil error. -/
theorem c4_problem_handler {T : Type} (st : HandlerState T) :
    (contentTypeMatches problemContentType st.resp = false →
      ProblemHandler st = (st, some .errUnhandledResponse)) ∧
    (contentTypeMatches problemContentType st.resp = true →
      (ProblemHandler st).1.resp.closed = true ∧
      (ProblemHandler st).2 =
        some (match st.resp.problemResult with
              | .failure e => e
              | .details d => .problemDetails d)) := by
  constructor
  · intro hm
    simp [ProblemHandler, ContentTypeHandler, ConditionalHandler, hm]
  · intro hm
    cases hres : st.resp.problemResult with
    | failure e =>
      by_cases hc : st.resp.closed
      · simp [ProblemHandler, ContentTypeHandler, ConditionalHandler, hm,
          problemFrom, bodyClose, hres, hc]
      · simp [ProblemHandler, ContentTypeHandler, ConditionalHandler, hm,
          problemFrom, bodyClose, hres, hc]
        cases hce : st.resp.closeErr <;> simp [hce]
    | details d =>
      by_cases hc : st.resp.closed
      · simp [ProblemHandler, ContentTypeHandler, ConditionalHandler, hm,
          problemFrom, bodyClose, hres, hc]
      · simp [ProblemHandler, ContentTypeHandler, ConditionalHandler, hm,
          problemFrom, bodyClose, hres, hc]
        cases hce : st.resp.closeErr <;> simp [hce]

/-- Witness for C4: a `text/plain` response falls through untouched; an
`application/problem+json` response is decoded, its body is closed, and the
decoded details come back as a non-nil error. -/
theorem c4_problem_handler_witness :
    ProblemHandler
      (⟨0, ⟨400, [("Content-Type", ["text/plain"])],
        false, false, none, none, .details "oops"⟩⟩ : HandlerState Nat)
      = (⟨0, ⟨400, [("Content-Type", ["text/plain"])],
        false, false, none, none, .details "oops"⟩⟩, some .errUnhandledResponse) ∧
    (ProblemHandler
      (⟨0, ⟨400, [("Content-Type", ["application/problem+json"])],
        false, false, none, none, .details "oops"⟩⟩ : HandlerState Nat)).1.resp.closed
        = true ∧
    (ProblemHandler
      (⟨0, ⟨400, [("Content-Type", ["application/problem+json"])],
        false, false, none, none, .details "oops"⟩⟩ : HandlerState Nat)).2
        = some (.problemDetails "oops") := by
  refine ⟨?_, ?_, ?_⟩
  · exact (c4_problem_handler _).1 (by decide)
  · exact ((c4_problem_handler _).2 (by decide)).1
  · exact ((c4_problem_handler _).2 (by decide)).2

/-- Model of an `*http.Request`, restricted to the fields the package
manipulates. `body` and `getBody` hold the request body bytes when set
(`getBody` models the presence and content of the `GetBody` closure). -/
structure Request where
  method : String
  url : URL
  header : List (String × List String)
  contentLength : Int
  body : Option (List Nat)
  getBody : Option (List Nat)
deriving DecidableEq, Repr

/-- The `fetchContext` of `httpc.go`: client, in-flight request and response
handler. The client is modelled as a function from the request to a
transport error or a response. -/
structure FetchCtx (T : Type) where
  client : Request → Except GoErr Response
  request : Request
  handler : Handler (HandlerState T)

/-- A `FetchOption` mutates the fetch context or fails. In Go an option
mutates the context in place and returns an error; an option error makes
`FetchWithResponse` return immediately, so the partially mutated context is
never observed and the `Except` encoding is faithful. -/
abbrev FetchOption (T : Type) := FetchCtx T → Except GoErr (FetchCtx T)

/-- The option-application loop of `FetchWithResponse`: apply each option in
order, stopping at the first error. -/
def applyOpts {T : Type} :
    List (FetchOption T) → FetchCtx T → Except GoErr (FetchCtx T)
  | [], ctx => .ok ctx
  | o :: rest, ctx =>
    match o ctx with
    | .error e => .error e
    | .ok ctx' => applyOpts rest ctx'

/-- Result of `FetchWithResponse`: value, raw response (when one was
received) and error. -/
structure FetchResult (T : Type) where
  value : T
  resp : Option Response
  err : Option GoErr
deriving DecidableEq, Repr

/-- The dispatch part of `FetchWithResponse`, lines 89–102 of `httpc.go`:
send the request via the context's client, then run the context's handler on
a zero destination value and the response; on handler error, return the
(possibly mutated) response together with the error and a zero value. -/
def dispatchPhase {T : Type} (zeroT : T) (ctx : FetchCtx T) : FetchResult T :=
  match ctx.client ctx.request with
  | .error e => ⟨zeroT, none, some e⟩
  | .ok resp =>
    match ctx.handler ⟨zeroT, resp⟩ with
    | (st, some e) => ⟨zeroT, some st.resp, some e⟩
    | (st, none) => ⟨st.dst, some st.resp, none⟩

/-- `FetchWithResponse` from `httpc.go`. `parsed` is the outcome of
`http.NewRequestWithContext`; `client` and `handler` are the defaults the
fetch context starts from (`http.DefaultClient` and `DefaultHandlers`). -/
def FetchWithResponse {T : Type} (zeroT : T) (parsed : Except GoErr Request)
    (client : Request → Except GoErr Response)
    (handler : Handler (HandlerState T)) (opts : List (FetchOption T)) :
    FetchResult T :=
  match parsed with
  | .error e => ⟨zeroT, none, some e⟩
  | .ok req =>
    match applyOpts opts ⟨client, req, handler⟩ with
    | .error e => ⟨zeroT, none, some e⟩
    | .ok ctx => dispatchPhase zeroT ctx

theorem applyOpts_append_ok {T : Type} (l₁ l₂ : List (FetchOption T))
    (ctx ctx' : FetchCtx T) (h : applyOpts l₁ ctx = .ok ctx') :
    applyOpts (l₁ ++ l₂) ctx = applyOpts l₂ ctx' := by
  induction l₁ generalizing ctx with
  | nil =>
    injection h with h
    subst h
    rfl
  | cons o rest ih =>
    rw [applyOpts] at h
    rw [List.cons_append, applyOpts]
    cases ho : o ctx with
    | error e =>
      rw [ho] at h
      exact Except.noConfusion h
    | ok c =>
      rw [ho] at h
      exact ih c h

theorem fetchWithResponse_ok {T : Type} (zeroT : T) (req : Request)
    (client : Request → Except GoErr Response)
    (handler : Handler (HandlerState T)) (opts : List (FetchOption T)) :
    FetchWithResponse zeroT (.ok req) client handler opts =
      match applyOpts opts ⟨client, req, handler⟩ with
      | .error e => ⟨zeroT, none, some e⟩
      | .ok ctx => dispatchPhase zeroT ctx := rfl

/-- C6: `FetchWithResponse` applies every option to the in-flight context in
the order given, strictly before dispatching the request via the client: if
the options up to some point succeed and the next option fails with `e`,
then `e` is returned, the remaining options are not applied (the result does
not depend on `post`) and no HTTP request is made (the response is `nil`,
the value is the zero value, and the result does not depend on the client);
if all options succeed, the request is dispatched from the fully updated
context. -/
theorem c6_options_before_dispatch {T : Type} (zeroT : T) (req : Request)
    (client : Request → Except GoErr Response)
    (handler : Handler (HandlerState T)) (pre post opts : List (FetchOption T))
    (o : FetchOption T) (ctx₁ ctx₂ : FetchCtx T) (e : GoErr) :
    (applyOpts pre ⟨client, req, handler⟩ = .ok ctx₁ → o ctx₁ = .error e →
      FetchWithResponse zeroT (.ok req) client handler (pre ++ o :: post)
        = ⟨zeroT, none, some e⟩) ∧
    (applyOpts opts ⟨client, req, handler⟩ = .ok ctx₂ →
      FetchWithResponse zeroT (.ok req) client handler opts
        = dispatchPhase zeroT ctx₂) := by
  constructor
  · intro hpre ho
    have happ : applyOpts (pre ++ o :: post) ⟨client, req, handler⟩ = .error e := by
      rw [applyOpts_append_ok pre (o :: post) _ ctx₁ hpre, applyOpts, ho]
    rw [fetchWithResponse_ok, happ]
  · intro hopts
    rw [fetchWithResponse_ok, hopts]

/-- Witness for C6: with a succeeding first option, a failing second option
and a third option after it, `FetchWithResponse` returns the failing
option's error with no response and the zero value. -/
theorem c6_options_before_dispatch_witness :
    FetchWithResponse (0 : Nat)
      (.ok ⟨"GET", ⟨"/", ""⟩, [], 0, none, none⟩)
      (fun _ => .ok ⟨200, [], false, false, none, none, .details ""⟩)
      (fun st => (st, none))
      [fun ctx => .ok ctx, fun _ => .error (.other 7), fun ctx => .ok ctx]
      = ⟨0, none, some (.other 7)⟩ := by
  exact (c6_options_before_dispatch 0
    ⟨"GET", ⟨"/", ""⟩, [], 0, none, none⟩
    (fun _ => .ok ⟨200, [], false, false, none, none, .details ""⟩)
    (fun st => (st, none))
    [fun ctx => .ok ctx] [fun ctx => .ok ctx] []
    (fun _ => .error (.other 7))
    ⟨fun _ => .ok ⟨200, [], false, false, none, none, .details ""⟩,
      ⟨"GET", ⟨"/", ""⟩, [], 0, none, none⟩, fun st => (st, none)⟩
    ⟨fun _ => .ok ⟨200, [], false, false, none, none, .details ""⟩,
      ⟨"GET", ⟨"/", ""⟩, [], 0, none, none⟩, fun st => (st, none)⟩
    (.other 7)).1 rfl rfl

/-- `WithBodyJSON` from `httpc.go`. `marshal` is the outcome of
`json.Marshal(v, opts...)` on the given value: the encoded bytes or an
encoding error. -/
def WithBodyJSON {T : Type} (marshal : Except GoErr (List Nat)) : FetchOption T :=
  fun ctx =>
    match marshal with
    | .error e => .error e
    | .ok body =>
      let req₀ := ctx.request
      let req₁ :=
        if headerGet req₀.header "Content-Type" == "" then
          {req₀ with header := headerSet req₀.header "Content-Type" "application/json"}
        else req₀
      .ok {ctx with request :=
        {req₁ with
          contentLength := (body.length : Int)
          body := some body
          getBody := some body}}

/-- C10: when marshalling succeeds, `WithBodyJSON` sets the `Content-Type`
header to `application/json` only when it is unset or empty; an existing
non-empty value is left unchanged (the header list is untouched), while
`ContentLength`, `Body` and `GetBody` are set in both cases. -/
theorem c10_with_body_json {T : Type} (body : List Nat) (ctx : FetchCtx T) :
    ((headerGet ctx.request.header "Content-Type" == "") = false →
      WithBodyJSON (.ok body) ctx = .ok {ctx with request :=
        {ctx.request with
          contentLength := (body.length : Int)
          body := some body
          getBody := some body}}) ∧
    ((headerGet ctx.request.header "Content-Type" == "") = true →
      WithBodyJSON (.ok body) ctx = .ok {ctx with request :=
        {ctx.request with
          header := headerSet ctx.request.header "Content-Type" "application/json"
          contentLength := (body.length : Int)
          body := some body
          getBody := some body}}) := by
  constructor
  · intro hct
    simp [WithBodyJSON, hct]
  · intro hct
    simp [WithBodyJSON, hct]

/-- Witness for C10: with `Content-Type: text/plain` already present, the
header list is unchanged while length, body and `GetBody` are set. -/
theorem c10_with_body_json_witness :
    WithBodyJSON (.ok [1, 2, 3])
      (⟨fun _ => .error (.other 1),
        ⟨"POST", ⟨"/", ""⟩, [("Content-Type", ["text/plain"])], 0, none, none⟩,
        fun st => (st, none)⟩ : FetchCtx Nat)
      = .ok ⟨fun _ => .error (.other 1),
        ⟨"POST", ⟨"/", ""⟩, [("Content-Type", ["text/plain"])], 3,
          some [1, 2, 3], some [1, 2, 3]⟩,
        fun st => (st, none)⟩ := by
  exact (c10_with_body_json [1, 2, 3]
    ⟨fun _ => .error (.other 1),
      ⟨"POST", ⟨"/", ""⟩, [("Content-Type", ["text/plain"])], 0, none, none⟩,
      fun st => (st, none)⟩).1 (by decide)

/-- `io.Copy(io.Discard, resp.Body)`: reading an already-closed body fails
with `http.ErrBodyReadAfterClose`; a body whose read errors is not drained;
otherwise the body is read to EOF. -/
def copyDiscard (r : Response) : Response × Option GoErr :=
  if r.closed then (r, some .errBodyReadAfterClose)
  else
    match r.readErr with
    | some e => (r, some e)
    | none => ({r with drained := true}, none)

/-- `discardBody` from `httpc.go`: drain the body, then close it, reporting
the close error only when draining succeeded. -/
def discardBody (r : Response) : Response × Option GoErr :=
  let c := copyDiscard r
  let cl := bodyClose c.1
  (cl.1,
    match cl.2 with
    | some cErr => if c.2 = none then some cErr else c.2
    | none => c.2)

/-- Outcome of `Fetch`: the returned value and error, together with the
final state of the received response object (ghost state: `Fetch` itself
does not return the response) after the deferred `discardBody` ran. -/
structure FetchOutcome (T : Type) where
  value : T
  err : Option GoErr
  finalResp : Option Response
deriving DecidableEq, Repr

/-- `Fetch` from `httpc.go`: `FetchWithResponse` followed by a deferred
`discardBody` on the received response (its error discarded); the response
itself is not returned. -/
def Fetch {T : Type} (zeroT : T) (parsed : Except GoErr Request)
    (client : Request → Except GoErr Response)
    (handler : Handler (HandlerState T)) (opts : List (FetchOption T)) :
    FetchOutcome T :=
  let r := FetchWithResponse zeroT parsed client handler opts
  ⟨r.value, r.err, r.resp.map (fun resp => (discardBody resp).1)⟩

theorem bodyClose_fst_closed (r : Response) : (bodyClose r).1.closed = true := by
  by_cases hc : r.closed <;> simp [bodyClose, hc]

/-- C7 counterexample: a handler that closes the body without draining it;
`Fetch` obtains a response, returns no error, and the response body at
return is closed but not drained — the claim's "the response body is
drained" fails at this input. -/
theorem c7_counterexample :
    ((Fetch (0 : Nat) (.ok ⟨"GET", ⟨"/", ""⟩, [], 0, none, none⟩)
      (fun _ => .ok ⟨200, [], false, false, none, none, .details ""⟩)
      (fun st => (⟨st.dst, {st.resp with closed := true}⟩, none))
      []).finalResp.map (fun r => (r.drained, r.closed))) = some (false, true) := by
  decide

/-- C7 amended: whenever `Fetch` obtains a response (with or without an
error), the response body is closed before `Fetch` returns — it is never
left open; it is moreover drained whenever the handler left the body open
and reading it succeeds. -/
theorem c7_fetch_closes_body {T : Type} (zeroT : T) (parsed : Except GoErr Request)
    (client : Request → Except GoErr Response)
    (handler : Handler (HandlerState T)) (opts : List (FetchOption T)) :
    (∀ r, (Fetch zeroT parsed client handler opts).finalResp = some r →
      r.closed = true) ∧
    (∀ r₀, (FetchWithResponse zeroT parsed client handler opts).resp = some r₀ →
      r₀.closed = false → r₀.readErr = none →
      ∃ r, (Fetch zeroT parsed client handler opts).finalResp = some r ∧
        r.drained = true ∧ r.closed = true) := by
  constructor
  · intro r hr
    cases hresp : (FetchWithResponse zeroT parsed client handler opts).resp with
    | none => rw [Fetch] at hr; rw [hresp] at hr; simp at hr
    | some r₀ =>
      rw [Fetch] at hr
      rw [hresp] at hr
      simp only [Option.map_some', Option.some.injEq] at hr
      subst hr
      exact bodyClose_fst_closed (copyDiscard r₀).1
  · intro r₀ hresp hopen hread
    refine ⟨(discardBody r₀).1, ?_, ?_, bodyClose_fst_closed (copyDiscard r₀).1⟩
    · rw [Fetch]
      rw [hresp]
      simp
    · show (bodyClose (copyDiscard r₀).1).1.drained = true
      have hcd : copyDiscard r₀ = ({r₀ with drained := true}, none) := by
        simp [copyDiscard, hopen, hread]
      rw [hcd]
      simp [bodyClose, hopen]

/-- Witness for C7 (amended): a run whose handler leaves the open body
untouched; at return the body is both drained and closed. -/
theorem c7_fetch_closes_body_witness :
    ∃ r, (Fetch (0 : Nat) (.ok ⟨"GET", ⟨"/", ""⟩, [], 0, none, none⟩)
      (fun _ => .ok ⟨200, [], false, false, none, none, .details ""⟩)
      (fun st => (st, none)) []).finalResp = some r ∧
      r.drained = true ∧ r.closed = true := by
  exact (c7_fetch_closes_body 0 (.ok ⟨"GET", ⟨"/", ""⟩, [], 0, none, none⟩)
    (fun _ => .ok ⟨200, [], false, false, none, none, .details ""⟩)
    (fun st => (st, none)) []).2
    ⟨200, [], false, false, none, none, .details ""⟩ rfl rfl rfl

/-- Uppercase hexadecimal digit (`0`–`9`, `A`–`F`), as used by `net/url`'s
percent-encoding. -/
def hexDigit (n : Nat) : Char :=
  if n < 10 then Char.ofNat (48 + n) else Char.ofNat (55 + n)

/-- UTF-8 encoding of a unicode code point as the list of its byte values;
`net/url` escapes a non-ASCII character byte by byte. -/
def utf8Bytes (n : Nat) : List Nat :=
  if n < 128 then [n]
  else if n < 2048 then [192 + n / 64, 128 + n % 64]
  else if n < 65536 then [224 + n / 4096, 128 + (n / 64) % 64, 128 + n % 64]
  else [240 + n / 262144, 128 + (n / 4096) % 64, 128 + (n / 64) % 64, 128 + n % 64]

/-- Percent-encoding of one byte: `%` followed by two uppercase hex digits.
(The `% 16` on the high digit is a no-op for byte values, which are below
256, and keeps the digit bound syntactically evident.) -/
def pctByte (b : Nat) : List Char :=
  ['%', hexDigit (b / 16 % 16), hexDigit (b % 16)]

/-- Modelled from the spec: `url.PathEscape`'s character classification for
path segments (`shouldEscape(c, encodePathSegment)` in `net/url`, which the
package defers to): alphanumerics, `-_.~` and the sub-delimiters
`$&+:=@` stay literal; `/;,?` and everything else is escaped. -/
def shouldEscapePathSegment (c : Char) : Bool :=
  if (decide (97 ≤ c.toNat) && decide (c.toNat ≤ 122)) ||
      (decide (65 ≤ c.toNat) && decide (c.toNat ≤ 90)) ||
      (decide (48 ≤ c.toNat) && decide (c.toNat ≤ 57)) then false
  else if c == '-' || c == '_' || c == '.' || c == '~' then false
  else if c == '$' || c == '&' || c == '+' || c == ',' || c == '/' || c == ':' ||
      c == ';' || c == '=' || c == '?' || c == '@' then
    c == '/' || c == ';' || c == ',' || c == '?'
  else true

/-- Modelled from the spec: `url.PathEscape(s)` — percent-escape every
character that may not appear literally in a path segment. -/
def pathEscape (s : String) : String :=
  ⟨(s.data.map (fun c =>
      if shouldEscapePathSegment c then ((utf8Bytes c.toNat).map pctByte).flatten
      else [c])).flatten⟩

/-- The literal pattern text `{name}` produced by
`fmt.Sprintf` with `regexp.QuoteMeta(name)`. -/
def placeholder (name : String) : List Char :=
  '{' :: (name.data ++ ['}'])

/-- The claim's trailing-boundary condition `(/|$)`: the text after the
placeholder is empty or starts with a slash. -/
def boundaryOk : List Char → Bool
  | [] => true
  | c :: _ => c == '/'

/-- Matching the pattern's `(/|$)` tail: at the end of the subject the match
consumes nothing (group 2 empty); a slash is consumed as group 2; anything
else fails. -/
def afterBoundary : List Char → Option (List Char × List Char)
  | [] => some ([], [])
  | c :: rest => if c == '/' then some ([c], rest) else none

/-- The `^` alternative of group 1 (empty group 1), to be tried when the
pattern itself starts at the current position: match the `(/|$)` tail after
the pattern. -/
def matchStart (pat s : List Char) :
    Option (List Char × List Char × List Char) :=
  match afterBoundary (s.drop pat.length) with
  | some (g2, rest) => some (([] : List Char), g2, rest)
  | none => none

/-- The `/` alternative of group 1: a slash at the current position,
followed by the pattern and its `(/|$)` tail. -/
def matchSlash (pat : List Char) :
    List Char → Option (List Char × List Char × List Char)
  | c :: s' =>
    if c == '/' && pat.isPrefixOf s' then
      match afterBoundary (s'.drop pat.length) with
      | some (g2, rest) => some ([c], g2, rest)
      | none => none
    else none
  | [] => none

/-- One match attempt of the Go regular expression `(^|/)\{name\}(/|$)` at
the current position of the subject: the `^` alternative of group 1 applies
only at the very start of the subject (`atStart`); on success, returns the
text of groups 1 and 2 and the remaining subject after the match.  (When
the `^` alternative's pattern prefix matches, the `/` alternative cannot
match at the same position — the pattern starts with `{` — so trying the
alternatives in this order is the regular expression's leftmost-first
behavior.) -/
def matchHere (pat : List Char) (atStart : Bool) (s : List Char) :
    Option (List Char × List Char × List Char) :=
  if atStart && pat.isPrefixOf s then matchStart pat s
  else matchSlash pat s

/-- A character Go's `regexp` template parser accepts in a group name:
letters, digits and underscore.  (Go uses the full Unicode classes; the
templates built here are `"${1}" + url.PathEscape(value) + "${2}"`, whose
characters are all ASCII — `PathEscape` output is ASCII — so the ASCII
classes coincide with Go's on every reachable template.) -/
def isNameChar (c : Char) : Bool :=
  (decide (97 ≤ c.toNat) && decide (c.toNat ≤ 122)) ||
  (decide (65 ≤ c.toNat) && decide (c.toNat ≤ 90)) ||
  (decide (48 ≤ c.toNat) && decide (c.toNat ≤ 57)) ||
  c == '_'

/-- Longest prefix of name characters, and the remainder. -/
def spanName : List Char → List Char × List Char
  | [] => ([], [])
  | c :: t =>
    if isNameChar c then
      let p := spanName t
      (c :: p.1, p.2)
    else ([], c :: t)

/-- Modelled from the spec: the number parse in Go `regexp`'s `extract`:
a reference name is numeric when it consists of digits only, subject to
Go's overflow guard (an accumulated value of 10^8 or more stops the parse)
and to the no-leading-zero rule. -/
def parseNumAux : List Char → Nat → Option Nat
  | [], num => some num
  | c :: t, num =>
    if decide (48 ≤ c.toNat) && decide (c.toNat ≤ 57) && decide (num < 100000000) then
      parseNumAux t (num * 10 + (c.toNat - 48))
    else none

def parseGroupNum (name : List Char) : Option Nat :=
  match name with
  | [] => none
  | c :: t =>
    match parseNumAux (c :: t) 0 with
    | none => none
    | some n => if c = '0' ∧ t ≠ [] then none else some n

/-- Modelled from the spec: Go `regexp`'s `extract`: parse one group
reference after a `$` in a replacement template — `$name` or `${name}` with
a nonempty name of name characters (the braced form requires the closing
brace).  Returns the reference (`some n` for a numeric name, `none` for a
named one) and the rest of the template, or `none` when the reference is
malformed (the `$` is then kept literal). -/
def extract (str : List Char) : Option (Option Nat × List Char) :=
  match str with
  | [] => none
  | c :: t =>
    let brace := c == '{'
    let str' := if brace then t else c :: t
    let p := spanName str'
    if p.1 = [] then none
    else if brace then
      match p.2 with
      | '}' :: rest' => some (parseGroupNum p.1, rest')
      | _ => none
    else some (parseGroupNum p.1, p.2)

/-- Modelled from the spec: Go `regexp`'s replacement-template expansion
(`Regexp.expand`), which `ReplaceAllString` applies to the whole template
for each match, specialized to this pattern's groups: `$$` is a literal
`$`; a well-formed reference to group 0 (the whole match), 1 or 2 inserts
that group's text (all three always participate in a match of
`(^|/)\{name\}(/|$)`); any other well-formed reference (out of range, or
named — the pattern has no named groups) inserts nothing; a malformed
reference keeps the `$` literal.  `fuel` is a structural bound: every
iteration consumes at least one template character, so `fuel ≥ t.length`
computes the expansion. -/
def expandTemplateAux (g0 g1 g2 : List Char) : Nat → List Char → List Char
  | 0, t => t
  | _ + 1, [] => []
  | fuel + 1, c :: t =>
    if c == '$' then
      match t with
      | [] => ['$']
      | d :: t' =>
        if d == '$' then '$' :: expandTemplateAux g0 g1 g2 fuel t'
        else
          match extract t with
          | some (ref, rest) =>
            (match ref with
             | some 0 => g0
             | some 1 => g1
             | some 2 => g2
             | _ => []) ++ expandTemplateAux g0 g1 g2 fuel rest
          | none => '$' :: expandTemplateAux g0 g1 g2 fuel t
    else c :: expandTemplateAux g0 g1 g2 fuel t

def expandTemplate (g0 g1 g2 tmpl : List Char) : List Char :=
  expandTemplateAux g0 g1 g2 tmpl.length tmpl

/-- The replacement template `"${1}" + url.PathEscape(value) + "${2}"` that
`WithPathValue` hands to `ReplaceAllString`. -/
def replTemplate (value : String) : List Char :=
  ['$', '{', '1', '}'] ++ (pathEscape value).data ++ ['$', '{', '2', '}']

/-- The scan of `regexp.ReplaceAllString`: find successive non-overlapping
leftmost matches and replace each by the expansion of the whole replacement
template `tmpl` for that match (group 0 is the matched text), continuing
after the consumed text. `fuel` is a structural bound on the recursion; a
match always consumes at least the nonempty `{name}`, so any
`fuel ≥ s.length` computes the scan. -/
def replaceScanAux (name : String) (tmpl : List Char) :
    Nat → Bool → List Char → List Char
  | 0, _, s => s
  | fuel + 1, atStart, s =>
    match matchHere (placeholder name) atStart s with
    | some (g1, g2, rest) =>
        expandTemplate (g1 ++ placeholder name ++ g2) g1 g2 tmpl
          ++ replaceScanAux name tmpl fuel false rest
    | none =>
      match s with
      | [] => []
      | c :: s' => c :: replaceScanAux name tmpl fuel false s'

/-- `pattern.ReplaceAllString(path, "${1}" + url.PathEscape(value) + "${2}")`
for the pattern `(^|/)\{name\}(/|$)`; the replacement string is a template:
`$` signs contributed by the escaped value are expanded as group
references. -/
def replaceAllPlaceholder (name value path : String) : String :=
  ⟨replaceScanAux name (replTemplate value) path.data.length true path.data⟩

/-- `WithPathValue` from `httpc.go`: substitute the placeholder in the URL
path; when nothing was replaced (the path is unchanged), fail with an
`UnusedPathValueError` carrying the URL, name and value. -/
def WithPathValue {T : Type} (name value : String) : FetchOption T :=
  fun ctx =>
    let replaced := replaceAllPlaceholder name value ctx.request.url.path
    if ctx.request.url.path == replaced then
      .error (.unusedPathValueError ctx.request.url name value)
    else
      .ok {ctx with request := {ctx.request with url :=
        {ctx.request.url with path := replaced}}}

/-- The claim's occurrence condition, positionally: some occurrence of `pat`
in the subject is preceded only by the start of the subject or a slash
(tracked by the flag `ok`) and followed by a slash or the end. -/
def hasQualifyingOccurrence (pat : List Char) : Bool → List Char → Bool
  | ok, s =>
    (ok && pat.isPrefixOf s && boundaryOk (s.drop pat.length)) ||
    (match s with
     | [] => false
     | c :: rest => hasQualifyingOccurrence pat (c == '/') rest)

/-- Number of `{` characters in a string; each replacement removes at least
one (the pattern's opening brace) and inserts none (`url.PathEscape` output
never contains a brace), so a changed path has strictly fewer. -/
def countBrace : List Char → Nat
  | [] => 0
  | c :: rest => (if c = '{' then 1 else 0) + countBrace rest

theorem countBrace_append (l r : List Char) :
    countBrace (l ++ r) = countBrace l + countBrace r := by
  induction l with
  | nil => simp [countBrace]
  | cons c l ih =>
    show (if c = '{' then 1 else 0) + countBrace (l ++ r)
        = ((if c = '{' then 1 else 0) + countBrace l) + countBrace r
    rw [ih]
    omega

theorem afterBoundary_decomp (t g2 rest : List Char)
    (h : afterBoundary t = some (g2, rest)) : t = g2 ++ rest := by
  cases t with
  | nil =>
    simp only [afterBoundary, Option.some.injEq, Prod.mk.injEq] at h
    rw [← h.1, ← h.2]
    rfl
  | cons c r =>
    simp only [afterBoundary] at h
    by_cases hc : (c == '/') = true
    · rw [if_pos hc] at h
      simp only [Option.some.injEq, Prod.mk.injEq] at h
      rw [← h.1, ← h.2]
      rfl
    · rw [if_neg hc] at h
      exact absurd h (by simp)

theorem afterBoundary_none (t : List Char) (h : boundaryOk t = false) :
    afterBoundary t = none := by
  cases t with
  | nil => simp [boundaryOk] at h
  | cons c r =>
    simp only [boundaryOk] at h
    simp [afterBoundary, h]

theorem afterBoundary_some (t : List Char) (h : boundaryOk t = true) :
    ∃ g2 rest, afterBoundary t = some (g2, rest) := by
  cases t with
  | nil => exact ⟨[], [], rfl⟩
  | cons c r =>
    simp only [boundaryOk] at h
    exact ⟨[c], r, by simp [afterBoundary, h]⟩

theorem isPrefixOf_append_drop (l : List Char) :
    ∀ s, l.isPrefixOf s = true → s = l ++ s.drop l.length := by
  induction l with
  | nil => intro s _; rfl
  | cons a l ih =>
    intro s h
    cases s with
    | nil => simp [List.isPrefixOf] at h
    | cons b s' =>
      simp only [List.isPrefixOf, Bool.and_eq_true, beq_iff_eq] at h
      obtain ⟨rfl, h2⟩ := h
      simp only [List.length_cons, List.drop_succ_cons, List.cons_append,
        List.cons.injEq]
      exact ⟨trivial, ih s' h2⟩

theorem matchHere_decomp (pat : List Char) (atStart : Bool)
    (s g1 g2 rest : List Char)
    (h : matchHere pat atStart s = some (g1, g2, rest)) :
    s = g1 ++ pat ++ g2 ++ rest := by
  rw [matchHere] at h
  by_cases hb : (atStart && pat.isPrefixOf s) = true
  · rw [if_pos hb] at h
    have hpre : pat.isPrefixOf s = true := ((Bool.and_eq_true _ _).mp hb).2
    rw [matchStart] at h
    cases hab : afterBoundary (s.drop pat.length) with
    | none => rw [hab] at h; exact absurd h (by simp)
    | some p =>
      obtain ⟨g2', rest'⟩ := p
      rw [hab] at h
      simp only [Option.some.injEq, Prod.mk.injEq] at h
      obtain ⟨h1, h2, h3⟩ := h
      rw [← h1, ← h2, ← h3, List.nil_append,
        isPrefixOf_append_drop pat s hpre, afterBoundary_decomp _ _ _ hab,
        List.append_assoc]
  · rw [if_neg hb] at h
    cases s with
    | nil => rw [matchSlash] at h; exact absurd h (by simp)
    | cons c s' =>
      rw [matchSlash] at h
      by_cases hcp : (c == '/' && pat.isPrefixOf s') = true
      · rw [if_pos hcp] at h
        have hpre : pat.isPrefixOf s' = true := ((Bool.and_eq_true _ _).mp hcp).2
        cases hab : afterBoundary (s'.drop pat.length) with
        | none => rw [hab] at h; exact absurd h (by simp)
        | some p =>
          obtain ⟨g2', rest'⟩ := p
          rw [hab] at h
          simp only [Option.some.injEq, Prod.mk.injEq] at h
          obtain ⟨h1, h2, h3⟩ := h
          rw [← h1, ← h2, ← h3]
          simp only [List.cons_append, List.nil_append, List.cons.injEq]
          refine ⟨by simp, ?_⟩
          rw [isPrefixOf_append_drop pat s' hpre, afterBoundary_decomp _ _ _ hab,
            List.append_assoc]
      · rw [if_neg hcp] at h
        exact absurd h (by simp)

theorem matchHere_rest_lt (pat : List Char) (hp : pat ≠ []) (atStart : Bool)
    (s g1 g2 rest : List Char)
    (h : matchHere pat atStart s = some (g1, g2, rest)) :
    rest.length < s.length := by
  have hd := matchHere_decomp pat atStart s g1 g2 rest h
  have hlen : s.length = g1.length + (pat.length + (g2.length + rest.length)) := by
    rw [hd]
    simp [List.length_append]
  have hpat : 0 < pat.length := List.length_pos.mpr hp
  omega

theorem hQ_cons (pat : List Char) (ok : Bool) (c : Char) (rest : List Char) :
    hasQualifyingOccurrence pat ok (c :: rest) =
      ((ok && pat.isPrefixOf (c :: rest) &&
          boundaryOk ((c :: rest).drop pat.length)) ||
        hasQualifyingOccurrence pat (c == '/') rest) := rfl

theorem hQ_nil (pat : List Char) (ok : Bool) :
    hasQualifyingOccurrence pat ok [] =
      ((ok && pat.isPrefixOf [] && boundaryOk (List.drop pat.length [])) ||
        false) := rfl

theorem hQ_first_disj_false (pat : List Char) (ok : Bool) (s : List Char)
    (h : hasQualifyingOccurrence pat ok s = false) :
    (ok && pat.isPrefixOf s && boundaryOk (s.drop pat.length)) = false := by
  cases s with
  | nil => rw [hQ_nil] at h; exact (Bool.or_eq_false_iff.mp h).1
  | cons c rest => rw [hQ_cons] at h; exact (Bool.or_eq_false_iff.mp h).1

theorem hQ_false_flag (pat : List Char) (s : List Char) (b : Bool)
    (h : hasQualifyingOccurrence pat b s = false) :
    hasQualifyingOccurrence pat false s = false := by
  cases s with
  | nil => rw [hQ_nil]; simp
  | cons c rest =>
    rw [hQ_cons] at h ⊢
    refine Bool.or_eq_false_iff.mpr ⟨by simp, ?_⟩
    exact (Bool.or_eq_false_iff.mp h).2

theorem hQ_false_cons (pat : List Char) (c : Char) (rest : List Char) :
    hasQualifyingOccurrence pat false (c :: rest)
      = hasQualifyingOccurrence pat (c == '/') rest := by
  rw [hQ_cons]
  simp

theorem hQ_true_flag_down (pat : List Char) (s : List Char)
    (h : hasQualifyingOccurrence pat true s = true)
    (hfd : (true && pat.isPrefixOf s && boundaryOk (s.drop pat.length)) = false) :
    hasQualifyingOccurrence pat false s = true := by
  cases s with
  | nil =>
    rw [hQ_nil, hfd] at h
    exact absurd h (by simp)
  | cons c rest =>
    rw [hQ_cons, hfd, Bool.false_or] at h
    rw [hQ_false_cons]
    exact h

theorem placeholder_ne_nil (name : String) : placeholder name ≠ [] := by
  simp [placeholder]

theorem placeholder_not_prefix_slash (name : String) (l : List Char) :
    (placeholder name).isPrefixOf ('/' :: l) = false := by
  simp [placeholder, List.isPrefixOf]

theorem countBrace_placeholder (name : String) :
    1 ≤ countBrace (placeholder name) := by
  show 1 ≤ (if ('{' : Char) = '{' then 1 else 0) + countBrace (name.data ++ ['}'])
  simp

theorem matchHere_none_of_noQual (name : String) (atStart : Bool) (s : List Char)
    (h : hasQualifyingOccurrence (placeholder name) atStart s = false) :
    matchHere (placeholder name) atStart s = none := by
  rw [matchHere]
  cases s with
  | nil =>
    have hpf : (placeholder name).isPrefixOf ([] : List Char) = false := by
      simp [placeholder, List.isPrefixOf]
    rw [hpf, Bool.and_false]
    simp [matchSlash]
  | cons c rest =>
    rw [hQ_cons] at h
    obtain ⟨h1, h2⟩ := Bool.or_eq_false_iff.mp h
    by_cases hb : (atStart && (placeholder name).isPrefixOf (c :: rest)) = true
    · rw [if_pos hb]
      have hbd : boundaryOk ((c :: rest).drop (placeholder name).length) = false := by
        rw [hb, Bool.true_and] at h1
        exact h1
      rw [matchStart, afterBoundary_none _ hbd]
    · rw [if_neg hb]
      rw [matchSlash]
      by_cases hcp : (c == '/' && (placeholder name).isPrefixOf rest) = true
      · rw [if_pos hcp]
        have hfd := hQ_first_disj_false _ _ _ h2
        rw [hcp, Bool.true_and] at hfd
        rw [afterBoundary_none _ hfd]
      · rw [if_neg hcp]

theorem matchHere_some_start (pat : List Char) (atStart : Bool) (s : List Char)
    (hb : (atStart && pat.isPrefixOf s) = true)
    (hbd : boundaryOk (s.drop pat.length) = true) :
    ∃ g2 rest, matchHere pat atStart s = some ([], g2, rest) := by
  obtain ⟨g2, rest, hab⟩ := afterBoundary_some _ hbd
  exact ⟨g2, rest, by rw [matchHere, if_pos hb, matchStart, hab]⟩

theorem matchHere_some_slash (name : String) (atStart : Bool) (s' : List Char)
    (hpf : (placeholder name).isPrefixOf s' = true)
    (hbd : boundaryOk (s'.drop (placeholder name).length) = true) :
    ∃ g2 rest,
      matchHere (placeholder name) atStart ('/' :: s') = some (['/'], g2, rest) := by
  obtain ⟨g2, rest, hab⟩ := afterBoundary_some _ hbd
  refine ⟨g2, rest, ?_⟩
  have hnb : (atStart && (placeholder name).isPrefixOf ('/' :: s')) = false := by
    rw [placeholder_not_prefix_slash, Bool.and_false]
  rw [matchHere, hnb]
  simp only [Bool.false_eq_true, if_false]
  rw [matchSlash]
  have hcond : (('/' : Char) == '/' && (placeholder name).isPrefixOf s') = true := by
    rw [hpf]
    simp
  rw [if_pos hcond, hab]

theorem afterBoundary_g2 (t g2 rest : List Char)
    (h : afterBoundary t = some (g2, rest)) : g2 = [] ∨ g2 = ['/'] := by
  cases t with
  | nil =>
    simp only [afterBoundary, Option.some.injEq, Prod.mk.injEq] at h
    exact Or.inl h.1.symm
  | cons c r =>
    simp only [afterBoundary] at h
    by_cases hc : (c == '/') = true
    · rw [if_pos hc] at h
      simp only [Option.some.injEq, Prod.mk.injEq] at h
      have hc' : c = '/' := by simpa using hc
      subst hc'
      exact Or.inr h.1.symm
    · rw [if_neg hc] at h
      exact absurd h (by simp)

theorem matchHere_groups (pat : List Char) (atStart : Bool)
    (s g1 g2 rest : List Char)
    (h : matchHere pat atStart s = some (g1, g2, rest)) :
    (g1 = [] ∨ g1 = ['/']) ∧ (g2 = [] ∨ g2 = ['/']) := by
  rw [matchHere] at h
  by_cases hb : (atStart && pat.isPrefixOf s) = true
  · rw [if_pos hb, matchStart] at h
    cases hab : afterBoundary (s.drop pat.length) with
    | none => rw [hab] at h; exact absurd h (by simp)
    | some p =>
      obtain ⟨g2', rest'⟩ := p
      rw [hab] at h
      simp only [Option.some.injEq, Prod.mk.injEq] at h
      obtain ⟨h1, h2, h3⟩ := h
      exact ⟨Or.inl h1.symm, h2 ▸ afterBoundary_g2 _ _ _ hab⟩
  · rw [if_neg hb] at h
    cases s with
    | nil => rw [matchSlash] at h; exact absurd h (by simp)
    | cons c s' =>
      rw [matchSlash] at h
      by_cases hcp : (c == '/' && pat.isPrefixOf s') = true
      · rw [if_pos hcp] at h
        have hc : c = '/' := by
          have := ((Bool.and_eq_true _ _).mp hcp).1
          simpa using this
        cases hab : afterBoundary (s'.drop pat.length) with
        | none => rw [hab] at h; exact absurd h (by simp)
        | some p =>
          obtain ⟨g2', rest'⟩ := p
          rw [hab] at h
          simp only [Option.some.injEq, Prod.mk.injEq] at h
          obtain ⟨h1, h2, h3⟩ := h
          subst hc
          exact ⟨Or.inr h1.symm, h2 ▸ afterBoundary_g2 _ _ _ hab⟩
      · rw [if_neg hcp] at h
        exact absurd h (by simp)

theorem replaceScanAux_succ (name : String) (tmpl : List Char) (fuel : Nat)
    (atStart : Bool) (s : List Char) :
    replaceScanAux name tmpl (fuel + 1) atStart s =
      match matchHere (placeholder name) atStart s with
      | some (g1, g2, rest) =>
          expandTemplate (g1 ++ placeholder name ++ g2) g1 g2 tmpl
            ++ replaceScanAux name tmpl fuel false rest
      | none =>
        match s with
        | [] => []
        | c :: s' => c :: replaceScanAux name tmpl fuel false s' := rfl

theorem replaceScanAux_id (name : String) (tmpl : List Char) :
    ∀ (fuel : Nat) (atStart : Bool) (s : List Char), s.length ≤ fuel →
      hasQualifyingOccurrence (placeholder name) atStart s = false →
      replaceScanAux name tmpl fuel atStart s = s := by
  intro fuel
  induction fuel with
  | zero => intro atStart s _ _; rfl
  | succ fuel ih =>
    intro atStart s hle h
    rw [replaceScanAux_succ, matchHere_none_of_noQual name atStart s h]
    cases s with
    | nil => rfl
    | cons c s' =>
      show c :: replaceScanAux name tmpl fuel false s' = c :: s'
      have hle' : s'.length ≤ fuel := by
        simp only [List.length_cons] at hle
        omega
      have h' : hasQualifyingOccurrence (placeholder name) false s' = false := by
        rw [hQ_cons] at h
        exact hQ_false_flag _ _ _ (Bool.or_eq_false_iff.mp h).2
      rw [ih false s' hle' h']

theorem replaceScanAux_count_le (name : String) (tmpl : List Char)
    (htmpl : ∀ g0M g1M g2M : List Char, (g1M = [] ∨ g1M = ['/']) →
      (g2M = [] ∨ g2M = ['/']) →
      countBrace (expandTemplate g0M g1M g2M tmpl) = 0) :
    ∀ (fuel : Nat) (atStart : Bool) (s : List Char), s.length ≤ fuel →
      countBrace (replaceScanAux name tmpl fuel atStart s) ≤ countBrace s := by
  intro fuel
  induction fuel with
  | zero => intro _ s _; exact Nat.le_refl _
  | succ fuel ih =>
    intro atStart s hle
    cases hm : matchHere (placeholder name) atStart s with
    | some trip =>
      obtain ⟨g1, g2, rest⟩ := trip
      rw [replaceScanAux_succ, hm]
      show countBrace (expandTemplate (g1 ++ placeholder name ++ g2) g1 g2 tmpl
          ++ replaceScanAux name tmpl fuel false rest) ≤ countBrace s
      have hrest := matchHere_rest_lt _ (placeholder_ne_nil name) _ _ _ _ _ hm
      have hdec := matchHere_decomp _ _ _ _ _ _ hm
      have hgr := matchHere_groups _ _ _ _ _ _ hm
      have hins : countBrace (expandTemplate (g1 ++ placeholder name ++ g2) g1 g2 tmpl)
          = 0 := htmpl _ _ _ hgr.1 hgr.2
      have hih := ih false rest (by omega)
      have hsum : countBrace s
          = countBrace g1 + countBrace (placeholder name)
            + countBrace g2 + countBrace rest := by
        rw [hdec, countBrace_append, countBrace_append, countBrace_append]
      have hout := countBrace_append
        (expandTemplate (g1 ++ placeholder name ++ g2) g1 g2 tmpl)
        (replaceScanAux name tmpl fuel false rest)
      omega
    | none =>
      rw [replaceScanAux_succ, hm]
      cases s with
      | nil => exact Nat.le_refl _
      | cons c s' =>
        show (if c = '{' then 1 else 0) + countBrace (replaceScanAux name tmpl fuel false s')
            ≤ (if c = '{' then 1 else 0) + countBrace s'
        have hle' : s'.length ≤ fuel := by
          simp only [List.length_cons] at hle
          omega
        exact Nat.add_le_add_left (ih false s' hle') _

theorem replaceScanAux_lt (name : String) (tmpl : List Char)
    (htmpl : ∀ g0M g1M g2M : List Char, (g1M = [] ∨ g1M = ['/']) →
      (g2M = [] ∨ g2M = ['/']) →
      countBrace (expandTemplate g0M g1M g2M tmpl) = 0) :
    ∀ (fuel : Nat) (atStart : Bool) (s : List Char), s.length ≤ fuel →
      hasQualifyingOccurrence (placeholder name) atStart s = true →
      countBrace (replaceScanAux name tmpl fuel atStart s) < countBrace s := by
  intro fuel
  induction fuel with
  | zero =>
    intro atStart s hle h
    have hs : s = [] := List.length_eq_zero.mp (Nat.le_zero.mp hle)
    subst hs
    rw [hQ_nil] at h
    simp [placeholder, List.isPrefixOf] at h
  | succ fuel ih =>
    intro atStart s hle h
    cases hm : matchHere (placeholder name) atStart s with
    | some trip =>
      obtain ⟨g1, g2, rest⟩ := trip
      rw [replaceScanAux_succ, hm]
      show countBrace (expandTemplate (g1 ++ placeholder name ++ g2) g1 g2 tmpl
          ++ replaceScanAux name tmpl fuel false rest) < countBrace s
      have hrest := matchHere_rest_lt _ (placeholder_ne_nil name) _ _ _ _ _ hm
      have hdec := matchHere_decomp _ _ _ _ _ _ hm
      have hgr := matchHere_groups _ _ _ _ _ _ hm
      have hins : countBrace (expandTemplate (g1 ++ placeholder name ++ g2) g1 g2 tmpl)
          = 0 := htmpl _ _ _ hgr.1 hgr.2
      have hle2 := replaceScanAux_count_le name tmpl htmpl fuel false rest (by omega)
      have hpat := countBrace_placeholder name
      have hsum : countBrace s
          = countBrace g1 + countBrace (placeholder name)
            + countBrace g2 + countBrace rest := by
        rw [hdec, countBrace_append, countBrace_append, countBrace_append]
      have hout := countBrace_append
        (expandTemplate (g1 ++ placeholder name ++ g2) g1 g2 tmpl)
        (replaceScanAux name tmpl fuel false rest)
      omega
    | none =>
      cases s with
      | nil =>
        rw [hQ_nil] at h
        simp [placeholder, List.isPrefixOf] at h
      | cons c s' =>
        rw [replaceScanAux_succ, hm]
        show (if c = '{' then 1 else 0) + countBrace (replaceScanAux name tmpl fuel false s')
            < (if c = '{' then 1 else 0) + countBrace s'
        rw [hQ_cons] at h
        have hfd : ((atStart && (placeholder name).isPrefixOf (c :: s'))
            && boundaryOk ((c :: s').drop (placeholder name).length)) = false := by
          by_contra hcon
          rw [Bool.not_eq_false] at hcon
          obtain ⟨hb, hbd⟩ := (Bool.and_eq_true _ _).mp hcon
          obtain ⟨g2, rest, hsome⟩ := matchHere_some_start _ _ _ hb hbd
          rw [hm] at hsome
          exact Option.noConfusion hsome
        rw [hfd, Bool.false_or] at h
        have htail : hasQualifyingOccurrence (placeholder name) false s' = true := by
          by_cases hc : (c == '/') = true
          · have hc' : c = '/' := by simpa using hc
            subst hc'
            rw [beq_self_eq_true] at h
            have hfd' : ((true && (placeholder name).isPrefixOf s')
                && boundaryOk (s'.drop (placeholder name).length)) = false := by
              by_contra hcon
              rw [Bool.not_eq_false] at hcon
              obtain ⟨hb', hbd'⟩ := (Bool.and_eq_true _ _).mp hcon
              have hpf : (placeholder name).isPrefixOf s' = true := by
                simpa using hb'
              obtain ⟨g2, rest, hsome⟩ := matchHere_some_slash name atStart s' hpf hbd'
              rw [hm] at hsome
              exact Option.noConfusion hsome
            exact hQ_true_flag_down _ _ h hfd'
          · rw [Bool.not_eq_true] at hc
            rw [hc] at h
            exact h
        have hle' : s'.length ≤ fuel := by
          simp only [List.length_cons] at hle
          omega
        exact Nat.add_lt_add_left (ih false s' hle' htail) _

theorem hexDigit_ne_brace (n : Nat) (h : n < 16) : hexDigit n ≠ '{' := by
  interval_cases n <;> decide

theorem countBrace_pctByte (b : Nat) : countBrace (pctByte b) = 0 := by
  have h1 : hexDigit (b / 16 % 16) ≠ '{' :=
    hexDigit_ne_brace _ (Nat.mod_lt _ (by norm_num))
  have h2 : hexDigit (b % 16) ≠ '{' :=
    hexDigit_ne_brace _ (Nat.mod_lt _ (by norm_num))
  simp [pctByte, countBrace, h1, h2]

theorem countBrace_pct_list (bs : List Nat) :
    countBrace ((bs.map pctByte).flatten) = 0 := by
  induction bs with
  | nil => rfl
  | cons b bs ih =>
    simp [List.map_cons, List.flatten_cons, countBrace_append,
      countBrace_pctByte, ih]

theorem shouldEscape_brace : shouldEscapePathSegment '{' = true := by decide

theorem pathEscape_no_brace (v : String) : countBrace (pathEscape v).data = 0 := by
  have hd : (pathEscape v).data
      = (v.data.map (fun c =>
          if shouldEscapePathSegment c then ((utf8Bytes c.toNat).map pctByte).flatten
          else [c])).flatten := rfl
  rw [hd]
  generalize v.data = l
  induction l with
  | nil => rfl
  | cons c l ih =>
    simp only [List.map_cons, List.flatten_cons, countBrace_append, ih,
      Nat.add_zero]
    by_cases hc : shouldEscapePathSegment c = true
    · rw [if_pos hc]
      exact countBrace_pct_list _
    · rw [if_neg hc]
      have hcne : c ≠ '{' := by
        intro hcc
        subst hcc
        exact hc shouldEscape_brace
      simp [countBrace, hcne]

/-- Number of `$` characters in a list; a `$`-free value yields a `$`-free
escaped value, whose template expansion is therefore literal. -/
def countDollar : List Char → Nat
  | [] => 0
  | c :: rest => (if c = '$' then 1 else 0) + countDollar rest

theorem countDollar_append (l r : List Char) :
    countDollar (l ++ r) = countDollar l + countDollar r := by
  induction l with
  | nil => simp [countDollar]
  | cons c l ih =>
    show (if c = '$' then 1 else 0) + countDollar (l ++ r)
        = ((if c = '$' then 1 else 0) + countDollar l) + countDollar r
    rw [ih]
    omega

theorem hexDigit_ne_dollar (n : Nat) (h : n < 16) : hexDigit n ≠ '$' := by
  interval_cases n <;> decide

theorem countDollar_pctByte (b : Nat) : countDollar (pctByte b) = 0 := by
  have h1 : hexDigit (b / 16 % 16) ≠ '$' :=
    hexDigit_ne_dollar _ (Nat.mod_lt _ (by norm_num))
  have h2 : hexDigit (b % 16) ≠ '$' :=
    hexDigit_ne_dollar _ (Nat.mod_lt _ (by norm_num))
  simp [pctByte, countDollar, h1, h2]

theorem countDollar_pct_list (bs : List Nat) :
    countDollar ((bs.map pctByte).flatten) = 0 := by
  induction bs with
  | nil => rfl
  | cons b bs ih =>
    simp [List.map_cons, List.flatten_cons, countDollar_append,
      countDollar_pctByte, ih]

theorem pathEscape_no_dollar (v : String) (hv : countDollar v.data = 0) :
    countDollar (pathEscape v).data = 0 := by
  have key : ∀ l : List Char, countDollar l = 0 →
      countDollar ((l.map (fun c =>
        if shouldEscapePathSegment c then ((utf8Bytes c.toNat).map pctByte).flatten
        else [c])).flatten) = 0 := by
    intro l
    induction l with
    | nil => intro _; rfl
    | cons c l ih =>
      intro h0
      have hc : c ≠ '$' := by
        intro hcc
        subst hcc
        simp [countDollar] at h0
      have hl : countDollar l = 0 := by
        have h0' : (if c = '$' then 1 else 0) + countDollar l = 0 := h0
        omega
      simp only [List.map_cons, List.flatten_cons, countDollar_append, ih hl,
        Nat.add_zero]
      by_cases hesc : shouldEscapePathSegment c = true
      · rw [if_pos hesc]
        exact countDollar_pct_list _
      · rw [if_neg hesc]
        simp [countDollar, hc]
  exact key v.data hv

theorem expandTemplateAux_nil (g0 g1 g2 : List Char) (fuel : Nat) :
    expandTemplateAux g0 g1 g2 fuel [] = [] := by
  cases fuel <;> rfl

theorem expandTemplateAux_succ_cons (g0 g1 g2 : List Char) (fuel : Nat)
    (c : Char) (t : List Char) :
    expandTemplateAux g0 g1 g2 (fuel + 1) (c :: t) =
      if c == '$' then
        match t with
        | [] => ['$']
        | d :: t' =>
          if d == '$' then '$' :: expandTemplateAux g0 g1 g2 fuel t'
          else
            match extract t with
            | some (ref, rest) =>
              (match ref with
               | some 0 => g0
               | some 1 => g1
               | some 2 => g2
               | _ => []) ++ expandTemplateAux g0 g1 g2 fuel rest
            | none => '$' :: expandTemplateAux g0 g1 g2 fuel t
      else c :: expandTemplateAux g0 g1 g2 fuel t := rfl

theorem expandTemplateAux_lit (g0 g1 g2 : List Char) (fuel : Nat) (c : Char)
    (t : List Char) (hc : (c == '$') = false) :
    expandTemplateAux g0 g1 g2 (fuel + 1) (c :: t)
      = c :: expandTemplateAux g0 g1 g2 fuel t := by
  rw [expandTemplateAux_succ_cons, hc]
  simp

theorem expandTemplateAux_ref1 (g0 g1 g2 : List Char) (fuel : Nat)
    (X : List Char) :
    expandTemplateAux g0 g1 g2 (fuel + 1) (['$', '{', '1', '}'] ++ X)
      = g1 ++ expandTemplateAux g0 g1 g2 fuel X := rfl

theorem expandTemplateAux_dol2 (g0 g1 g2 : List Char) (fuel : Nat) :
    expandTemplateAux g0 g1 g2 (fuel + 1) ['$', '{', '2', '}']
      = g2 ++ expandTemplateAux g0 g1 g2 fuel [] := rfl

theorem expandTemplateAux_esc (g0 g1 g2 : List Char) :
    ∀ (esc : List Char) (fuel : Nat), countDollar esc = 0 →
      expandTemplateAux g0 g1 g2 (esc.length + (fuel + 1))
          (esc ++ ['$', '{', '2', '}']) = esc ++ g2 := by
  intro esc
  induction esc with
  | nil =>
    intro fuel _
    simp only [List.nil_append, List.length_nil, Nat.zero_add]
    rw [expandTemplateAux_dol2, expandTemplateAux_nil, List.append_nil]
  | cons c esc' ih =>
    intro fuel h0
    have hc : (c == '$') = false := by
      rw [beq_eq_false_iff_ne]
      intro hcc
      subst hcc
      simp [countDollar] at h0
    have h0' : countDollar esc' = 0 := by
      have hstep : (if c = '$' then 1 else 0) + countDollar esc' = 0 := h0
      omega
    have harith : (c :: esc').length + (fuel + 1)
        = (esc'.length + (fuel + 1)) + 1 := by
      simp only [List.length_cons]
      omega
    simp only [List.cons_append]
    rw [harith, expandTemplateAux_lit g0 g1 g2 _ c _ hc, ih fuel h0']

/-- For a `$`-free escaped value, the whole template
`"${1}" + esc + "${2}"` expands to `group1 ++ esc ++ group2`: exactly the
literal-splice behavior, which therefore holds of the program whenever the
value contains no `$`. -/
theorem expandTemplate_dollar_free (g0 g1 g2 esc : List Char)
    (h : countDollar esc = 0) :
    expandTemplate g0 g1 g2 (['$', '{', '1', '}'] ++ esc ++ ['$', '{', '2', '}'])
      = g1 ++ esc ++ g2 := by
  show expandTemplateAux g0 g1 g2
      ((['$', '{', '1', '}'] ++ esc ++ ['$', '{', '2', '}'] : List Char).length)
      (['$', '{', '1', '}'] ++ esc ++ ['$', '{', '2', '}']) = g1 ++ esc ++ g2
  rw [List.append_assoc]
  have hlen : (['$', '{', '1', '}'] ++ ((esc : List Char) ++ ['$', '{', '2', '}'])).length
      = ((esc ++ ['$', '{', '2', '}'] : List Char).length + 1) + 3 := by
    simp only [List.length_append, List.length_cons, List.length_nil]
    try omega
  have hlen2 : (esc ++ ['$', '{', '2', '}'] : List Char).length + 3
      = esc.length + (6 + 1) := by
    simp only [List.length_append, List.length_cons, List.length_nil]
    try omega
  rw [hlen]
  have hshape : ((esc ++ ['$', '{', '2', '}'] : List Char).length + 1) + 3
      = ((esc ++ ['$', '{', '2', '}'] : List Char).length + 3) + 1 := by omega
  rw [hshape, expandTemplateAux_ref1, hlen2, expandTemplateAux_esc g0 g1 g2 esc 6 h,
    List.append_assoc]

/-- C2 counterexample.  First, in the path `/{id}/{id}` both placeholders
are preceded by a slash (or the start) and followed by a slash (or the
end), yet `WithPathValue "id" "x"` produces `/x/{id}` — the match on the
first placeholder consumes the delimiting slash, so the second qualifying
occurrence is not replaced, the result differs from the full replacement
`/x/x` the claim describes, and the remaining path still contains a
qualifying occurrence.  Second, the replacement string is a
`ReplaceAllString` template, so `$` signs in the value are expanded as
group references: with value `$0` on path `{id}` the expansion reproduces
the matched text, the path is unchanged and an `UnusedPathValueError` is
returned — not the claimed `nil` with the placeholder replaced by the
escaped value `$0`. -/
theorem c2_counterexample :
    (match WithPathValue "id" "x"
        (⟨fun _ => .error (.other 0),
          ⟨"GET", ⟨"/{id}/{id}", ""⟩, [], 0, none, none⟩,
          fun st => (st, none)⟩ : FetchCtx Nat) with
      | .ok ctx' => some ctx'.request.url.path
      | .error _ => none) = some "/x/{id}" ∧
    "/x/{id}" ≠ "/x/x" ∧
    hasQualifyingOccurrence (placeholder "id") true "/x/{id}".data = true ∧
    (match WithPathValue "id" "$0"
        (⟨fun _ => .error (.other 0),
          ⟨"GET", ⟨"{id}", ""⟩, [], 0, none, none⟩,
          fun st => (st, none)⟩ : FetchCtx Nat) with
      | .ok _ => none
      | .error e => some e)
      = some (.unusedPathValueError ⟨"{id}", ""⟩ "id" "$0") := by
  refine ⟨by decide, by decide, by decide, by decide⟩

/-- C2 (amended): `WithPathValue name value` substitutes along the regular
expression's left-to-right scan of non-overlapping matches (each match
consumes the delimiting slash after the placeholder, so an immediately
adjacent qualifying occurrence is not replaced), the replacement being the
`ReplaceAllString` template `"${1}" + PathEscape(value) + "${2}"` expanded
per match — so `$` signs in the escaped value act as group references;
when the scan leaves the path unchanged an `UnusedPathValueError` carrying
the URL, name and value is returned.  For every value without `$` the
expansion inserts the `PathEscape`d value literally and the scan changes
the path exactly when a qualifying occurrence exists: the option fails iff
there is none, and otherwise rewrites the path and returns `nil`. -/
theorem c2_with_path_value {T : Type} (name value : String) (ctx : FetchCtx T) :
    (hasQualifyingOccurrence (placeholder name) true ctx.request.url.path.data
        = false →
      WithPathValue name value ctx
        = .error (.unusedPathValueError ctx.request.url name value)) ∧
    (countDollar value.data = 0 →
      hasQualifyingOccurrence (placeholder name) true ctx.request.url.path.data
        = true →
      replaceAllPlaceholder name value ctx.request.url.path
          ≠ ctx.request.url.path ∧
      WithPathValue name value ctx = .ok {ctx with request :=
        {ctx.request with url := {ctx.request.url with
          path := replaceAllPlaceholder name value ctx.request.url.path}}}) := by
  constructor
  · intro h
    have hid : replaceAllPlaceholder name value ctx.request.url.path
        = ctx.request.url.path := by
      show (⟨replaceScanAux name (replTemplate value)
          ctx.request.url.path.data.length true ctx.request.url.path.data⟩ : String)
        = ctx.request.url.path
      rw [replaceScanAux_id name (replTemplate value)
        ctx.request.url.path.data.length true ctx.request.url.path.data
        (Nat.le_refl _) h]
    simp only [WithPathValue, hid, beq_self_eq_true, if_pos]
  · intro hval h
    have hesc : countDollar (pathEscape value).data = 0 :=
      pathEscape_no_dollar value hval
    have htmpl : ∀ g0M g1M g2M : List Char, (g1M = [] ∨ g1M = ['/']) →
        (g2M = [] ∨ g2M = ['/']) →
        countBrace (expandTemplate g0M g1M g2M (replTemplate value)) = 0 := by
      intro g0M g1M g2M hg1 hg2
      show countBrace (expandTemplate g0M g1M g2M
        (['$', '{', '1', '}'] ++ (pathEscape value).data ++ ['$', '{', '2', '}'])) = 0
      rw [expandTemplate_dollar_free g0M g1M g2M (pathEscape value).data hesc,
        countBrace_append, countBrace_append, pathEscape_no_brace]
      rcases hg1 with rfl | rfl <;> rcases hg2 with rfl | rfl <;> decide
    have hne : replaceAllPlaceholder name value ctx.request.url.path
        ≠ ctx.request.url.path := by
      intro heq
      have hdata : replaceScanAux name (replTemplate value)
          ctx.request.url.path.data.length true ctx.request.url.path.data
          = ctx.request.url.path.data := congrArg String.data heq
      have hlt := replaceScanAux_lt name (replTemplate value) htmpl
        ctx.request.url.path.data.length true
        ctx.request.url.path.data (Nat.le_refl _) h
      rw [hdata] at hlt
      exact Nat.lt_irrefl _ hlt
    refine ⟨hne, ?_⟩
    have hbeq : (ctx.request.url.path
        == replaceAllPlaceholder name value ctx.request.url.path) = false := by
      rw [beq_eq_false_iff_ne]
      exact fun heq => hne heq.symm
    simp only [WithPathValue, hbeq, Bool.false_eq_true, if_false]

/-- Witness for C2 (amended): `/api/product/{id}` with the `$`-free value
`1234` becomes `/api/product/1234` and succeeds; `/api/product` (no
placeholder) yields an `UnusedPathValueError` carrying the URL, name and
value. -/
theorem c2_with_path_value_witness :
    WithPathValue "id" "1234"
      (⟨fun _ => .error (.other 0),
        ⟨"GET", ⟨"/api/product/{id}", ""⟩, [], 0, none, none⟩,
        fun st => (st, none)⟩ : FetchCtx Nat)
      = .ok ⟨fun _ => .error (.other 0),
        ⟨"GET", ⟨replaceAllPlaceholder "id" "1234" "/api/product/{id}", ""⟩,
          [], 0, none, none⟩,
        fun st => (st, none)⟩ ∧
    replaceAllPlaceholder "id" "1234" "/api/product/{id}" = "/api/product/1234" ∧
    WithPathValue "id" "1234"
      (⟨fun _ => .error (.other 0),
        ⟨"GET", ⟨"/api/product", ""⟩, [], 0, none, none⟩,
        fun st => (st, none)⟩ : FetchCtx Nat)
      = .error (.unusedPathValueError ⟨"/api/product", ""⟩ "id" "1234") := by
  refine ⟨?_, by decide, ?_⟩
  · exact ((c2_with_path_value "id" "1234" _).2 (by decide) (by decide)).2
  · exact (c2_with_path_value "id" "1234" _).1 (by decide)

end Httpc
